import Mathlib

/-!
# Verification of core WashingtonDC claims

Shallow embedding of parts of the WashingtonDC Dreamcast emulator, faithful
to the C source: machine integers become `Nat` with explicit masking where
overflow matters; fallible paths become `Option`/`Except`; parsing and
dispatch loops become structural recursion over their inputs.

Sections below follow the source files:
 * `src/libwashdc/hw/maple/maple.c` (maple bus address packing, frame handling)
 * `src/libwashdc/dc_sched.h` (clock / countdown invariant)
 * `src/libwashdc/hw/sh4/sh4.h` (cycle counting, DR register access)
 * `src/libwashdc/jit/jit_intp/code_block_intp.c` (IL interpreter)
 * `src/libwashdc/hw/sh4/sh4_jit.c` / `sh4_jit.h` (JIT hash emission)
 * `src/jit/x86_64/native_mem.c` (emitted memory-map dispatch)
 * `src/config_file.c` (configuration parser)
-/

namespace Washdc

/-! ## Maple bus: address packing (maple.c) -/

/-- `maple_addr_pack` from maple.c: unit 0 encodes as 0x20, unit k >= 1 as
`(1 <<< (k-1)) &&& 0x1f`; the port lands in bits 6-7. -/
def maple_addr_pack (port unit : Nat) : Nat :=
  let addr := if unit > 0 then (1 <<< (unit - 1)) &&& 0x1f else 0x20
  addr ||| (port <<< 6)

/-- `maple_addr_unpack` from maple.c: decodes the unit from the low six bits
(one-hot for units 1-5, 0x20 for unit 0) and the port from bits 6-7; an
unrecognized low-bits pattern raises `ERROR_INTEGRITY`, modelled as `none`. -/
def maple_addr_unpack (addr : Nat) : Option (Nat × Nat) :=
  let port := (addr >>> 6) &&& 0x3
  if addr &&& 0x3f == 0x20 then some (port, 0)
  else if addr &&& 0x1f == 1 then some (port, 1)
  else if addr &&& 0x1f == 2 then some (port, 2)
  else if addr &&& 0x1f == 4 then some (port, 3)
  else if addr &&& 0x1f == 8 then some (port, 4)
  else if addr &&& 0x1f == 16 then some (port, 5)
  else none

/-! ## Clock countdown (dc_sched.h)

`dc_cycle_stamp_t` is `uint64_t`; the three private fields of a clock are
COUNTDOWN, TARGET and STAMP.  Arithmetic is modulo `2^64`. -/

def U64 : Nat := 2 ^ 64

/-- The three `priv` fields of `struct dc_clock`, each a 64-bit value. -/
structure DcClock where
  countdown : Nat
  target : Nat
  stamp : Nat
deriving Repr, DecidableEq

/-- A clock state is well formed when each field fits in 64 bits. -/
def DcClock.wf (c : DcClock) : Prop :=
  c.countdown < U64 ∧ c.target < U64 ∧ c.stamp < U64

/-- `clock_cycle_stamp`: returns `TARGET - COUNTDOWN` (64-bit wraparound). -/
def clock_cycle_stamp (c : DcClock) : Nat :=
  (c.target + U64 - c.countdown) % U64

/-- `clock_set_cycle_stamp`: `STAMP := val; COUNTDOWN := TARGET - val`. -/
def clock_set_cycle_stamp (c : DcClock) (val : Nat) : DcClock :=
  { c with stamp := val, countdown := (c.target + U64 - val) % U64 }

/-- `clock_countdown`: read the COUNTDOWN field. -/
def clock_countdown (c : DcClock) : Nat := c.countdown

/-- `clock_countdown_sub`: `COUNTDOWN -= n_cycles` (64-bit wraparound); the
caller must guarantee `n_cycles <= clock_countdown(clock)`. -/
def clock_countdown_sub (c : DcClock) (n : Nat) : DcClock :=
  { c with countdown := (c.countdown + U64 - n % U64) % U64 }

/-! ## SH4 cycle counting (sh4.h)

`sh4_count_inst_cycles` approximates the SH4's dual-issue pipeline: an
instruction may be "free" depending on its issue group and the group of the
previous instruction. -/

/-- The SH4 issue groups referenced by `sh4_count_inst_cycles` (`SH4_GROUP_MT`,
`_EX`, `_BR`, `_LS`, `_FE`, `_CO`, `_NONE`). -/
inductive Sh4Group
  | MT | EX | BR | LS | FE | CO | NONE
deriving Repr, DecidableEq

/-- The fields of `struct InstOpcode` that `sh4_count_inst_cycles` reads:
the issue group and the issue cycle count. -/
structure InstOpcode where
  group : Sh4Group
  issue : Nat
deriving Repr, DecidableEq

/-- `sh4_count_inst_cycles` from sh4.h, returning the pair
(cycles charged, updated `last_inst_type`). -/
def sh4_count_inst_cycles (op : InstOpcode) (last_inst_type : Sh4Group) :
    Nat × Sh4Group :=
  if last_inst_type = .NONE ∨
     (op.group = .CO ∨ last_inst_type = .CO ∨
      (last_inst_type = op.group ∧ op.group ≠ .MT)) then
    -- this instruction was not free
    (op.issue, op.group)
  else
    -- free instruction; the next one will not be free
    (0, .NONE)

/-- The claim's characterization of a free instruction: previous group neither
CO nor NONE, current group not CO, and the two groups differ (so that, per the
claim, an MT instruction following an MT instruction is charged). -/
def claimedFreeInst (op : InstOpcode) (last_inst_type : Sh4Group) : Prop :=
  last_inst_type ≠ .CO ∧ last_inst_type ≠ .NONE ∧ op.group ≠ .CO ∧
    last_inst_type ≠ op.group

instance (op : InstOpcode) (last : Sh4Group) :
    Decidable (claimedFreeInst op last) := by
  unfold claimedFreeInst; infer_instance

/-- The characterization the code actually implements: as above except that
MT-after-MT is also free. -/
def actualFreeInst (op : InstOpcode) (last_inst_type : Sh4Group) : Prop :=
  last_inst_type ≠ .CO ∧ last_inst_type ≠ .NONE ∧ op.group ≠ .CO ∧
    (last_inst_type ≠ op.group ∨ op.group = .MT)

instance (op : InstOpcode) (last : Sh4Group) :
    Decidable (actualFreeInst op last) := by
  unfold actualFreeInst; infer_instance

/-! ## SH4 double-precision register file access (sh4.h)

`sh4_read_dr`/`sh4_write_dr` move a double between the `FR` pair
`DR0+n`, `DR0+n+1` of the 32-bit register array and a host double,
swapping the two 32-bit halves in each direction. -/

/-- Index of `SH4_REG_DR0` (= `SH4_REG_FR0`) in the SH4 register array.
Modelled from the spec: the register enumeration lives in a header outside
the provided sources; the claims proved here hold for any fixed value. -/
def SH4_REG_DR0 : Nat := 68

/-- A host double as its 64-bit representation, split into the low and high
32-bit words.  `sh4_read_dr`/`sh4_write_dr` only ever move these words with
`memcpy`; they never interpret the value arithmetically. -/
structure CDouble where
  lo : Nat
  hi : Nat
deriving Repr, DecidableEq

/-- `sh4_read_dr` from sh4.h: the low 32-bit word of the result is read from
`reg[DR0 + dr_reg + 1]` and the high word from `reg[DR0 + dr_reg]`. -/
def sh4_read_dr (reg : Nat → Nat) (dr_reg : Nat) : CDouble :=
  { lo := reg (SH4_REG_DR0 + dr_reg + 1), hi := reg (SH4_REG_DR0 + dr_reg) }

/-- `sh4_write_dr` from sh4.h: `reg[DR0 + dr_reg]` receives the high 32-bit
word of `val` and `reg[DR0 + dr_reg + 1]` the low word. -/
def sh4_write_dr (reg : Nat → Nat) (dr_reg : Nat) (val : CDouble) :
    Nat → Nat :=
  Function.update (Function.update reg (SH4_REG_DR0 + dr_reg) val.hi)
    (SH4_REG_DR0 + dr_reg + 1) val.lo

/-! ## JIT intermediate language (code_block_intp.c, jit_il emitters)

The IL instruction forms below carry exactly the operands that
`code_block_intp_exec` reads.  Slot values are 32-bit patterns, held as
`Nat` below `2^32`; arithmetic that can wrap carries an explicit
`% 2^32`.  Host function pointers appearing in `call_func` ops are
represented by a tag naming the function. -/

def U32 : Nat := 2 ^ 32

/-- Tags for the host functions the SH4 JIT passes to `jit_call_func`. -/
inductive HostFn
  | set_fpscr | set_sr | other (n : Nat)
deriving Repr, DecidableEq

/-- The subset of `enum jit_opcode` instruction forms needed by the claims,
with the operand fields `code_block_intp_exec` reads.  (In the C source the
operands live in a per-op union; `JIT_OP_SET_GE_SIGNED`'s destination is
written through the `set_ge_unsigned` union member, which has the same
layout, so it denotes this op's own destination field.) -/
inductive JitInst
  | jump (jmp_addr_slot hash_slot : Nat)
  | set_slot (slot_idx new_val : Nat)
  | set_slot_host_ptr (slot_idx : Nat)
  | call_func (fn : HostFn) (slot_no : Nat)
  | read_32_slot (addr_slot dst_slot : Nat)
  | load_slot_offset (slot_base index slot_dst : Nat)
  | store_slot_offset (slot_src slot_base index : Nat)
  | load_float_slot_offset (slot_base index slot_dst : Nat)
  | store_float_slot_offset (slot_src slot_base index : Nat)
  | add_const32 (slot_dst const32 : Nat)
  | mov (slot_src slot_dst : Nat)
  | and_const32 (slot_no const32 : Nat)
  | or (slot_src slot_dst : Nat)
  | or_const32 (slot_no const32 : Nat)
  | xor_const32 (slot_no const32 : Nat)
  | shll (slot_no shift_amt : Nat)
  | discard_slot (slot_no : Nat)
  | set_gt_unsigned (slot_lhs slot_rhs slot_dst : Nat)
  | set_gt_signed (slot_lhs slot_rhs slot_dst : Nat)
  | set_gt_signed_const (slot_lhs : Nat) (imm_rhs : Int) (slot_dst : Nat)
  | set_eq (slot_lhs slot_rhs slot_dst : Nat)
  | set_ge_unsigned (slot_lhs slot_rhs slot_dst : Nat)
  | set_ge_signed (slot_lhs slot_rhs slot_dst : Nat)
  | set_ge_signed_const (slot_lhs : Nat) (imm_rhs : Int) (slot_dst : Nat)
  | set_gt_float (slot_lhs slot_rhs slot_dst : Nat)
deriving Repr, DecidableEq

/-- `(int32_t)` reinterpretation of a 32-bit slot value. -/
def toInt32 (n : Nat) : Int :=
  if n % U32 < 2 ^ 31 then (n % U32 : Int) else (n % U32 : Int) - (U32 : Int)

/-- Slot valuations of the IL interpreter (`block->slots`, `as_u32` view). -/
def SlotState : Type := Nat → Nat

/-- One non-jump step of `code_block_intp_exec`.  `fgt` decides the
`JIT_OP_SET_GT_FLOAT` comparison on the two slots' 32-bit patterns (the
claims hold for every such float ordering, so it is kept as a parameter);
host-call and host-memory ops do not modify slots. -/
def intp_step (fgt : Nat → Nat → Bool) (σ : SlotState) : JitInst → SlotState
  | .jump _ _ => σ
  | .set_slot s v => Function.update σ s (v % U32)
  | .set_slot_host_ptr _ => σ
  | .call_func _ _ => σ
  | .read_32_slot _ _ => σ
  | .load_slot_offset _ _ _ => σ
  | .store_slot_offset _ _ _ => σ
  | .load_float_slot_offset _ _ _ => σ
  | .store_float_slot_offset _ _ _ => σ
  | .add_const32 s v => Function.update σ s ((σ s + v) % U32)
  | .mov src dst => Function.update σ dst (σ src)
  | .and_const32 s v => Function.update σ s (σ s &&& v)
  | .or src dst => Function.update σ dst (σ dst ||| σ src)
  | .or_const32 s v => Function.update σ s (σ s ||| v)
  | .xor_const32 s v => Function.update σ s (σ s ^^^ v)
  | .shll s amt => Function.update σ s ((σ s <<< amt) % U32)
  | .discard_slot _ => σ
  | .set_gt_unsigned lhs rhs dst =>
      if σ lhs > σ rhs then Function.update σ dst (σ dst ||| 1) else σ
  | .set_gt_signed lhs rhs dst =>
      if toInt32 (σ lhs) > toInt32 (σ rhs) then
        Function.update σ dst (σ dst ||| 1) else σ
  | .set_gt_signed_const lhs imm dst =>
      if toInt32 (σ lhs) > imm then Function.update σ dst (σ dst ||| 1) else σ
  | .set_eq lhs rhs dst =>
      if σ lhs = σ rhs then Function.update σ dst (σ dst ||| 1) else σ
  | .set_ge_unsigned lhs rhs dst =>
      if σ lhs ≥ σ rhs then Function.update σ dst (σ dst ||| 1) else σ
  | .set_ge_signed lhs rhs dst =>
      if toInt32 (σ lhs) ≥ toInt32 (σ rhs) then
        Function.update σ dst (σ dst ||| 1) else σ
  | .set_ge_signed_const lhs imm dst =>
      if toInt32 (σ lhs) ≥ imm then Function.update σ dst (σ dst ||| 1) else σ
  | .set_gt_float lhs rhs dst =>
      if fgt (σ lhs) (σ rhs) then Function.update σ dst (σ dst ||| 1) else σ

/-- `code_block_intp_exec`'s main loop over an instruction list: runs
non-jump ops with `intp_step` and stops at the first `JIT_OP_JUMP`,
returning the final slot state and, if a jump was reached, the value of its
jump-address slot (falling off the end is `ERROR_INTEGRITY` in the C). -/
def code_block_intp_exec (fgt : Nat → Nat → Bool) :
    List JitInst → SlotState → SlotState × Option Nat
  | [], σ => (σ, none)
  | .jump jmp_addr_slot _ :: _, σ => (σ, some (σ jmp_addr_slot))
  | i :: rest, σ => code_block_intp_exec fgt rest (intp_step fgt σ i)

/-- Run a branch-free instruction sequence, returning the slot state. -/
def intp_run (fgt : Nat → Nat → Bool) (l : List JitInst) (σ : SlotState) :
    SlotState :=
  l.foldl (intp_step fgt) σ

/-- For the eight comparison ops of the IL interpreter, the destination slot
operand; `none` for every other instruction form. -/
def cmpDst : JitInst → Option Nat
  | .set_gt_unsigned _ _ dst => some dst
  | .set_gt_signed _ _ dst => some dst
  | .set_gt_signed_const _ _ dst => some dst
  | .set_eq _ _ dst => some dst
  | .set_ge_unsigned _ _ dst => some dst
  | .set_ge_signed _ _ dst => some dst
  | .set_ge_signed_const _ _ dst => some dst
  | .set_gt_float _ _ dst => some dst
  | _ => none

/-- Whether a comparison op's condition holds in slot state `σ`, mirroring
the `if` conditions of the corresponding `code_block_intp_exec` cases
(`false` for non-comparison ops). -/
def cmpHolds (fgt : Nat → Nat → Bool) (σ : SlotState) : JitInst → Bool
  | .set_gt_unsigned lhs rhs _ => decide (σ lhs > σ rhs)
  | .set_gt_signed lhs rhs _ => decide (toInt32 (σ lhs) > toInt32 (σ rhs))
  | .set_gt_signed_const lhs imm _ => decide (toInt32 (σ lhs) > imm)
  | .set_eq lhs rhs _ => decide (σ lhs = σ rhs)
  | .set_ge_unsigned lhs rhs _ => decide (σ lhs ≥ σ rhs)
  | .set_ge_signed lhs rhs _ => decide (toInt32 (σ lhs) ≥ toInt32 (σ rhs))
  | .set_ge_signed_const lhs imm _ => decide (toInt32 (σ lhs) ≥ imm)
  | .set_gt_float lhs rhs _ => fgt (σ lhs) (σ rhs)
  | _ => false

/-! ## SH4 JIT block hash (sh4_jit.h, sh4_jit.c)

`sh4_jit_hash` combines the masked PC with FPSCR's PR and SZ bits;
`sh4_jit_hash_slot` emits IL to compute the same value at run time. -/

def SH4_JIT_HASH_MASK : Nat := 0x1fffffff
def SH4_JIT_HASH_PR_SHIFT : Nat := 29
def SH4_JIT_HASH_SZ_SHIFT : Nat := 30

/-- Modelled from the spec: the FPSCR PR/SZ bit positions come from the SH4
register header, which is outside the provided sources; PR is FPSCR bit 19
and SZ bit 20 on the SH4. -/
def SH4_FPSCR_PR_SHIFT : Nat := 19

/-- Modelled from the spec: see `SH4_FPSCR_PR_SHIFT`. -/
def SH4_FPSCR_SZ_SHIFT : Nat := 20

def SH4_FPSCR_PR_MASK : Nat := 1 <<< SH4_FPSCR_PR_SHIFT
def SH4_FPSCR_SZ_MASK : Nat := 1 <<< SH4_FPSCR_SZ_SHIFT

/-- `sh4_jit_hash` from sh4_jit.h:
`(addr & 0x1fffffff) | (pr << 29) | (sz << 30)`. -/
def sh4_jit_hash (addr : Nat) (pr_bit sz_bit : Bool) : Nat :=
  (addr &&& SH4_JIT_HASH_MASK) |||
    (pr_bit.toNat <<< SH4_JIT_HASH_PR_SHIFT) |||
    (sz_bit.toNat <<< SH4_JIT_HASH_SZ_SHIFT)

/-- The PR bit of an FPSCR value. -/
def fpscr_pr (fpscr : Nat) : Bool := fpscr.testBit SH4_FPSCR_PR_SHIFT

/-- The SZ bit of an FPSCR value. -/
def fpscr_sz (fpscr : Nat) : Bool := fpscr.testBit SH4_FPSCR_SZ_SHIFT

/-- Slot types (`enum washdc_jit_slot_tp`). -/
inductive SlotTp
  | GEN | FLOAT | HOST_PTR
deriving Repr, DecidableEq

/-- The parts of `struct il_code_block` the emission claims need: the
emitted instruction list and the slot table (number of slots and the type
recorded for each). -/
structure IlCodeBlock where
  insts : List JitInst
  n_slots : Nat
  slot_tp : Nat → SlotTp

/-- `il_code_block_push_inst`: append one instruction. -/
def il_code_block_push_inst (b : IlCodeBlock) (i : JitInst) : IlCodeBlock :=
  { b with insts := b.insts ++ [i] }

/-- Modelled from the spec: `alloc_slot` (jit/code_block.c is outside the
provided sources) hands out a slot distinct from every live slot, modelled
as the next fresh index, and records its type. -/
def alloc_slot (b : IlCodeBlock) (tp : SlotTp) : IlCodeBlock × Nat :=
  ({ b with n_slots := b.n_slots + 1,
            slot_tp := Function.update b.slot_tp b.n_slots tp },
   b.n_slots)

/-- Modelled from the spec: `free_slot` releases a slot, emitting a
`JIT_OP_DISCARD_SLOT` marker (a no-op in the IL interpreter) for the
benefit of the native backend's liveness tracking. -/
def free_slot (b : IlCodeBlock) (slot_no : Nat) : IlCodeBlock :=
  il_code_block_push_inst b (.discard_slot slot_no)

/-- `sh4_jit_hash_slot` from sh4_jit.c: emit IL ops computing the dynamic
block hash of the address in `jmp_addr_slot` under the FPSCR value in
`fpscr_slot`, leaving it in `hash_slot`.  Each `jit_*` emitter call appends
the corresponding instruction (operand order source-then-destination, as at
every call site). -/
def sh4_jit_hash_slot (b : IlCodeBlock)
    (jmp_addr_slot hash_slot fpscr_slot : Nat) : IlCodeBlock :=
  let (b, pr_slot) := alloc_slot b .GEN
  let (b, sz_slot) := alloc_slot b .GEN
  let b := il_code_block_push_inst b (.mov jmp_addr_slot hash_slot)
  let b := il_code_block_push_inst b (.and_const32 hash_slot SH4_JIT_HASH_MASK)
  let b := il_code_block_push_inst b (.mov fpscr_slot pr_slot)
  let b := il_code_block_push_inst b (.mov fpscr_slot sz_slot)
  let b := il_code_block_push_inst b (.and_const32 pr_slot SH4_FPSCR_PR_MASK)
  let b := il_code_block_push_inst b (.and_const32 sz_slot SH4_FPSCR_SZ_MASK)
  let b := il_code_block_push_inst b
    (.shll pr_slot (SH4_JIT_HASH_PR_SHIFT - SH4_FPSCR_PR_SHIFT))
  let b := il_code_block_push_inst b
    (.shll sz_slot (SH4_JIT_HASH_SZ_SHIFT - SH4_FPSCR_SZ_SHIFT))
  let b := il_code_block_push_inst b (.or pr_slot hash_slot)
  let b := il_code_block_push_inst b (.or sz_slot hash_slot)
  let b := free_slot b sz_slot
  free_slot b pr_slot

/-- The instruction sequence `sh4_jit_hash_slot` appends when the block has
`n` slots allocated (the two scratch slots are `n` and `n + 1`). -/
def hashSlotEmitted (jmp_addr_slot hash_slot fpscr_slot n : Nat) :
    List JitInst :=
  [.mov jmp_addr_slot hash_slot,
   .and_const32 hash_slot SH4_JIT_HASH_MASK,
   .mov fpscr_slot n,
   .mov fpscr_slot (n + 1),
   .and_const32 n SH4_FPSCR_PR_MASK,
   .and_const32 (n + 1) SH4_FPSCR_SZ_MASK,
   .shll n (SH4_JIT_HASH_PR_SHIFT - SH4_FPSCR_PR_SHIFT),
   .shll (n + 1) (SH4_JIT_HASH_SZ_SHIFT - SH4_FPSCR_SZ_SHIFT),
   .or n hash_slot,
   .or (n + 1) hash_slot,
   .discard_slot (n + 1),
   .discard_slot n]

/-- `sh4_jit_hash_slot_known_fpscr` from sh4_jit.c: the constant variant,
using the compile context's `pr_bit`/`sz_bit` instead of reading FPSCR. -/
def sh4_jit_hash_slot_known_fpscr (pr_bit sz_bit : Bool) (b : IlCodeBlock)
    (jmp_addr_slot hash_slot : Nat) : IlCodeBlock :=
  let b := il_code_block_push_inst b (.mov jmp_addr_slot hash_slot)
  let b := il_code_block_push_inst b (.and_const32 hash_slot SH4_JIT_HASH_MASK)
  let b := if pr_bit then
    il_code_block_push_inst b
      (.or_const32 hash_slot (1 <<< SH4_JIT_HASH_PR_SHIFT))
    else b
  if sz_bit then
    il_code_block_push_inst b
      (.or_const32 hash_slot (1 <<< SH4_JIT_HASH_SZ_SHIFT))
    else b

/-! ## SH4 JIT compile-time state (sh4_jit.c)

The register-residency map, compile context and IL block that the
per-instruction compile functions mutate.  The helpers below follow
sh4_jit.c's `reg_slot`, `res_drain_reg`, `res_drain_all_regs`,
`res_invalidate_reg`, `res_invalidate_all_regs`, `res_disassociate_reg`
and `get_regbase_slot`. -/

/-- `enum reg_status`. -/
inductive RegStatus
  | SH4 | SLOT_AND_SH4 | SLOT
deriving Repr, DecidableEq

/-- `struct residency` (the fields the modelled paths read). -/
structure Residency where
  stat : RegStatus
  slot_no : Nat
deriving Repr, DecidableEq

/-- Modelled from the spec: the size of the SH4 register array
(`SH4_REGISTER_COUNT`, defined in a header outside the provided sources);
the theorems only need `SH4_REG_FPSCR` and `SH4_REG_R0 + 15` to lie below
it. -/
def SH4_REGISTER_COUNT : Nat := 131

/-- Modelled from the spec: index of `SH4_REG_R0` in the register array. -/
def SH4_REG_R0 : Nat := 0

/-- Modelled from the spec: index of `SH4_REG_FPSCR` in the register
array. -/
def SH4_REG_FPSCR : Nat := 66

/-- The fields of `struct sh4_jit_compile_ctx` used by the modelled compile
functions. -/
structure Sh4JitCompileCtx where
  reg_slot : Nat
  sz_bit : Bool
  pr_bit : Bool
  in_delay_slot : Bool
  dirty_fpscr : Bool
  have_reg_slot : Bool
deriving Repr, DecidableEq

/-- The state a compile function threads: the (file-scope) residency map
`reg_map`, the compile context, and the IL code block being built. -/
structure JitEmitState where
  reg_map : Nat → Residency
  ctx : Sh4JitCompileCtx
  block : IlCodeBlock

/-- Append one IL instruction to the block under construction. -/
def jemit (st : JitEmitState) (i : JitInst) : JitEmitState :=
  { st with block := il_code_block_push_inst st.block i }

/-- `alloc_slot` lifted to the compile state. -/
def st_alloc_slot (st : JitEmitState) (tp : SlotTp) : JitEmitState × Nat :=
  let (b, s) := alloc_slot st.block tp
  ({ st with block := b }, s)

/-- `free_slot` lifted to the compile state. -/
def st_free_slot (st : JitEmitState) (s : Nat) : JitEmitState :=
  { st with block := free_slot st.block s }

/-- `get_regbase_slot` from sh4_jit.c: return the cached host-pointer slot
holding `sh4->reg`, allocating it and emitting its initialization on first
use. -/
def get_regbase_slot (st : JitEmitState) : JitEmitState × Nat :=
  if st.ctx.have_reg_slot then (st, st.ctx.reg_slot)
  else
    let (st, s) := st_alloc_slot st .HOST_PTR
    let st := jemit st (.set_slot_host_ptr s)
    ({ st with ctx := { st.ctx with reg_slot := s, have_reg_slot := true } },
     s)

/-- `reg_slot` from sh4_jit.c: return a slot holding the current value of
`reg_no`, emitting a load from the register array (and marking the register
`SLOT_AND_SH4`) when the register is not yet resident.  (The `default:`
arm of the C `switch` on the slot type raises `ERROR_UNIMPLEMENTED`; it is
unreachable because `reg_slot` is only called with GEN and FLOAT types.) -/
def reg_slot (st : JitEmitState) (reg_no : Nat) (tp : SlotTp) :
    JitEmitState × Nat :=
  match (st.reg_map reg_no).stat with
  | .SH4 =>
      let (st, slot_no) := st_alloc_slot st tp
      let st := { st with
        reg_map := Function.update st.reg_map reg_no
          (Residency.mk .SLOT_AND_SH4 slot_no) }
      let (st, regbase) := get_regbase_slot st
      let st :=
        match tp with
        | .GEN => jemit st (.load_slot_offset regbase reg_no slot_no)
        | .FLOAT =>
            jemit st (.load_float_slot_offset regbase reg_no slot_no)
        | .HOST_PTR => st
      (st, slot_no)
  | _ => (st, (st.reg_map reg_no).slot_no)

/-- Overwrite only the residency status of a register (`reg_map[r].stat =
...` in the C). -/
def set_reg_stat (st : JitEmitState) (reg_no : Nat) (stat : RegStatus) :
    JitEmitState :=
  { st with
    reg_map := Function.update st.reg_map reg_no
      (Residency.mk stat (st.reg_map reg_no).slot_no) }

/-- `res_drain_reg` from sh4_jit.c: if the register is dirty (`SLOT`), emit
a store back to the register array and mark it `SLOT_AND_SH4`.  (As in
`reg_slot`, the `default:` arm raising `ERROR_UNIMPLEMENTED` is
unreachable.) -/
def res_drain_reg (st : JitEmitState) (reg_no : Nat) : JitEmitState :=
  let res := st.reg_map reg_no
  if res.stat = .SLOT then
    let (st, regbase) := get_regbase_slot st
    let st :=
      match st.block.slot_tp res.slot_no with
      | .GEN => jemit st (.store_slot_offset res.slot_no regbase reg_no)
      | .FLOAT =>
          jemit st (.store_float_slot_offset res.slot_no regbase reg_no)
      | .HOST_PTR => st
    set_reg_stat st reg_no .SLOT_AND_SH4
  else st

/-- `res_drain_all_regs`: drain every register of the array. -/
def res_drain_all_regs (st : JitEmitState) : JitEmitState :=
  (List.range SH4_REGISTER_COUNT).foldl res_drain_reg st

/-- `res_invalidate_reg`: mark a resident register `SH4` and free its
slot (without writing it back). -/
def res_invalidate_reg (st : JitEmitState) (reg_no : Nat) : JitEmitState :=
  let res := st.reg_map reg_no
  if res.stat ≠ .SH4 then
    st_free_slot (set_reg_stat st reg_no .SH4) res.slot_no
  else st

/-- One step of `res_invalidate_all_regs`'s loop (the loop re-checks the
status before calling `res_invalidate_reg`). -/
def res_invalidate_step (st : JitEmitState) (reg_no : Nat) : JitEmitState :=
  if (st.reg_map reg_no).stat ≠ .SH4 then res_invalidate_reg st reg_no
  else st

/-- `res_invalidate_all_regs`: mark every register `SH4`. -/
def res_invalidate_all_regs (st : JitEmitState) : JitEmitState :=
  (List.range SH4_REGISTER_COUNT).foldl res_invalidate_step st

/-- `res_disassociate_reg`: drain the register, then mark it `SH4` while
leaving its slot allocated. -/
def res_disassociate_reg (st : JitEmitState) (reg_no : Nat) : JitEmitState :=
  set_reg_stat (res_drain_reg st reg_no) reg_no .SH4

/-- The block-terminator sequence shared by `sh4_jit_lds_rm_fpscr`,
`sh4_jit_ldsl_armp_fpscr` and `sh4_jit_fschg` (the C repeats it inline in
each function): allocate a jump-address slot holding `pc + 2`, reload FPSCR
from the register array, emit the dynamic hash computation, drain, and
jump.  `free_fpscr` is true for `sh4_jit_fschg`, which additionally frees
the FPSCR slot after the hash computation. -/
def sh4_jit_emit_hash_jump (free_fpscr : Bool) (st : JitEmitState)
    (pc : Nat) : JitEmitState :=
  let (st, jmp_addr_slot) := st_alloc_slot st .GEN
  let st := jemit st (.set_slot jmp_addr_slot (pc + 2))
  let (st, hash_slot) := st_alloc_slot st .GEN
  let (st, fpscr_slot) := reg_slot st SH4_REG_FPSCR .GEN
  let st := { st with
    block := sh4_jit_hash_slot st.block jmp_addr_slot hash_slot fpscr_slot }
  let st := if free_fpscr then st_free_slot st fpscr_slot else st
  let st := res_drain_all_regs st
  let st := jemit st (.jump jmp_addr_slot hash_slot)
  let st := st_free_slot st hash_slot
  st_free_slot st jmp_addr_slot

/-- The part of `sh4_jit_lds_rm_fpscr` preceding its terminator decision:
load Rm, commit and invalidate all residencies, and call `sh4_set_fpscr`
on the loaded value. -/
def sh4_jit_lds_rm_fpscr_pre (st : JitEmitState) (inst : Nat) :
    JitEmitState :=
  let reg_src := ((inst &&& 0x0f00) >>> 8) + SH4_REG_R0
  let (st, slot_src) := reg_slot st reg_src .GEN
  let st := res_disassociate_reg st reg_src
  let st := res_drain_all_regs st
  let st := res_invalidate_all_regs st
  let st := jemit st (.call_func .set_fpscr slot_src)
  let st := st_free_slot st slot_src
  { st with ctx := { st.ctx with dirty_fpscr := true } }

/-- `sh4_jit_lds_rm_fpscr` from sh4_jit.c (LDS Rm, FPSCR): load Rm, call
`sh4_set_fpscr` on it, and, unless compiling a delay slot, terminate the
block with a dynamically hashed jump to `pc + 2`.  Returns the updated
state and the value the C function returns (`false` ends the block). -/
def sh4_jit_lds_rm_fpscr (st : JitEmitState) (pc inst : Nat) :
    JitEmitState × Bool :=
  let st := sh4_jit_lds_rm_fpscr_pre st inst
  if ¬ st.ctx.in_delay_slot then
    (sh4_jit_emit_hash_jump false st pc, false)
  else
    (st, true)

/-- The part of `sh4_jit_ldsl_armp_fpscr` preceding its terminator
decision: read memory at Rm, post-increment Rm, commit and invalidate all
residencies, and call `sh4_set_fpscr` on the loaded value. -/
def sh4_jit_ldsl_armp_fpscr_pre (st : JitEmitState) (inst : Nat) :
    JitEmitState :=
  let addr_reg := ((inst &&& 0x0f00) >>> 8) + SH4_REG_R0
  let (st, addr_slot) := reg_slot st addr_reg .GEN
  let (st, new_val_slot) := st_alloc_slot st .GEN
  let st := jemit st (.read_32_slot addr_slot new_val_slot)
  let st := jemit st (.add_const32 addr_slot 4)
  let st := set_reg_stat st addr_reg .SLOT
  let st := res_drain_all_regs st
  let st := res_invalidate_all_regs st
  let st := jemit st (.call_func .set_fpscr new_val_slot)
  let st := st_free_slot st new_val_slot
  { st with ctx := { st.ctx with dirty_fpscr := true } }

/-- `sh4_jit_ldsl_armp_fpscr` from sh4_jit.c (LDS.L @Rm+, FPSCR): read
memory at Rm, post-increment Rm, call `sh4_set_fpscr` on the loaded value,
and, unless compiling a delay slot, terminate the block. -/
def sh4_jit_ldsl_armp_fpscr (st : JitEmitState) (pc inst : Nat) :
    JitEmitState × Bool :=
  let st := sh4_jit_ldsl_armp_fpscr_pre st inst
  if ¬ st.ctx.in_delay_slot then
    (sh4_jit_emit_hash_jump false st pc, false)
  else
    (st, true)

/-- The part of `sh4_jit_fschg` preceding its terminator decision: XOR
FPSCR's SZ bit, flip the context's `sz_bit`, commit and invalidate all
residencies, and call `sh4_set_fpscr` on the new value. -/
def sh4_jit_fschg_pre (st : JitEmitState) : JitEmitState :=
  let (st, new_val_slot) := reg_slot st SH4_REG_FPSCR .GEN
  let st := res_disassociate_reg st SH4_REG_FPSCR
  let st := jemit st (.xor_const32 new_val_slot SH4_FPSCR_SZ_MASK)
  let st := { st with ctx := { st.ctx with sz_bit := ! st.ctx.sz_bit } }
  let st := res_drain_all_regs st
  let st := res_invalidate_all_regs st
  let st := jemit st (.call_func .set_fpscr new_val_slot)
  let st := st_free_slot st new_val_slot
  { st with ctx := { st.ctx with dirty_fpscr := true } }

/-- `sh4_jit_fschg` from sh4_jit.c (FSCHG): XOR FPSCR's SZ bit, call
`sh4_set_fpscr` on the new value, and, unless compiling a delay slot,
terminate the block. -/
def sh4_jit_fschg (st : JitEmitState) (pc inst : Nat) :
    JitEmitState × Bool :=
  let st := sh4_jit_fschg_pre st
  if ¬ st.ctx.in_delay_slot then
    (sh4_jit_emit_hash_jump true st pc, false)
  else
    (st, true)

/-- Whether an IL instruction is the block terminator `JIT_OP_JUMP`. -/
def isJumpInst : JitInst → Bool
  | .jump _ _ => true
  | _ => false

/-- `st'` extends `st`'s block with instructions none of which is a jump
(no block terminator was emitted). -/
def appendsNoJump (st st' : JitEmitState) : Prop :=
  ∃ l, st'.block.insts = st.block.insts ++ l ∧
    ∀ i ∈ l, isJumpInst i = false

/-- `st'` extends `st`'s block with a trailing dynamically hashed block
terminator: after some non-jump instructions, the jump-target slot `j` is
set to `pc + 2`, FPSCR is loaded fresh from the register array into slot
`fp` (allocating the register-base pointer slot `rb` first if needed), the
dynamic hash sequence of `sh4_jit_hash_slot` computes the block hash of
`j`'s value under `fp`'s value into slot `h`, and the block ends with
`jump(j, h)` (followed only by slot-discard markers). -/
def appendsHashJump (st st' : JitEmitState) (pc : Nat) : Prop :=
  ∃ pre rb setup j h fp ns d,
    st'.block.insts = st.block.insts ++ pre ++
      [JitInst.set_slot j (pc + 2)] ++ setup ++
      [JitInst.load_slot_offset rb SH4_REG_FPSCR fp] ++
      hashSlotEmitted j h fp ns ++ d ++
      [JitInst.jump j h, JitInst.discard_slot h, JitInst.discard_slot j] ∧
    (∀ i ∈ pre, isJumpInst i = false) ∧
    (setup = [] ∨ setup = [JitInst.set_slot_host_ptr rb]) ∧
    (d = [] ∨ d = [JitInst.discard_slot fp]) ∧
    j < ns ∧ h < ns ∧ fp < ns ∧ j ≠ h ∧ j ≠ fp ∧ h ≠ fp

/-! ## Emitted memory-map dispatch (jit/x86_64/native_mem.c)

`emit_native_mem_read_16`, `emit_native_mem_read_32` and
`emit_native_mem_write_32` each emit, per region and in map order, the
compare/branch pair `jb check_next` / `ja check_next` on
`addr & range_mask` against `first_addr` and
`last_addr - (sizeof(access) - 1)`, falling through to the handler of the
first region in range and to `error_func` (a fatal `ERROR_INTEGRITY`) when
no region matches.  The function below is that chain, as a recursion over
the region list; `nbytes` is the access size in bytes (2 or 4). -/

/-- The fields of `struct memory_map_region` the emitted dispatch reads. -/
structure MemoryMapRegion where
  first_addr : Nat
  last_addr : Nat
  range_mask : Nat
  mask : Nat
deriving Repr, DecidableEq

/-- The emitted dispatch chain: first region (in map order) whose masked
address passes both unsigned compares wins; `none` is the `error_func`
fall-through.  `region_end` is the 32-bit value
`last_addr - (nbytes - 1)`. -/
def emit_native_mem_dispatch (nbytes : Nat) :
    List MemoryMapRegion → Nat → Option MemoryMapRegion
  | [], _ => none
  | r :: rest, addr =>
      let masked := addr &&& r.range_mask
      let region_end := (r.last_addr + U32 - (nbytes - 1)) % U32
      if masked < r.first_addr then emit_native_mem_dispatch nbytes rest addr
      else if region_end < masked then
        emit_native_mem_dispatch nbytes rest addr
      else some r

/-- The claim's per-region match condition: `(addr & range_mask)` lies in
the interval `[first_addr, last_addr - N/8]` (for an access of `nbytes` =
`N/8` bytes). -/
def claimedRegionMatch (nbytes : Nat) (r : MemoryMapRegion) (addr : Nat) :
    Prop :=
  r.first_addr ≤ (addr &&& r.range_mask) ∧
    (addr &&& r.range_mask) ≤ r.last_addr - nbytes

instance (nbytes : Nat) (r : MemoryMapRegion) (addr : Nat) :
    Decidable (claimedRegionMatch nbytes r addr) := by
  unfold claimedRegionMatch; infer_instance

/-- The match condition the emitted code implements:
`first_addr <= (addr & range_mask) <= last_addr - (nbytes - 1)`
(the subtraction in 32-bit arithmetic). -/
def nativeRegionMatch (nbytes : Nat) (r : MemoryMapRegion) (addr : Nat) :
    Bool :=
  !decide ((addr &&& r.range_mask) < r.first_addr) &&
    !decide ((r.last_addr + U32 - (nbytes - 1)) % U32 <
      (addr &&& r.range_mask))

/-! ## Maple frame handling (maple.c)

`maple_handle_frame` routes a decoded frame by pattern and command.  Its
per-command handlers either write a response frame back (a response code
and an output payload length) or raise a fatal error. -/

/-- Maple command codes.  Modelled from the spec: the numeric values live in
maple.h outside the provided sources; the dispatch only distinguishes
`DEVINFO`, `GETCOND` and everything else (including `NOP`). -/
inductive MapleCmd
  | DEVINFO | GETCOND | NOP | other (n : Nat)
deriving Repr, DecidableEq

/-- Maple response codes used by the handlers. -/
inductive MapleResp
  | DEVINFO | DATATRF | NONE
deriving Repr, DecidableEq

/-- The condition-payload shapes of `maple_device_cond`. -/
inductive MapleCondTp
  | controller | keyboard
deriving Repr, DecidableEq

/-- Fatal error kinds raised by the frame handlers. -/
inductive MapleErr
  | unimplemented
deriving Repr, DecidableEq

/-- The fields of `struct maple_frame` read by `maple_handle_frame`. -/
structure MapleFrame where
  ptrn : Nat
  pack_len : Nat
  cmd : MapleCmd
  maple_addr : Nat
deriving Repr, DecidableEq

/-- The maple bus state the handlers consult: whether the device at a maple
address is plugged in (`dev->enable`) and, for `GETCOND`, the shape of its
condition payload. -/
structure MapleCtx where
  dev_enable : Nat → Bool
  dev_cond_tp : Nat → MapleCondTp

/-- Modelled from the spec: response payload sizes (`MAPLE_DEVINFO_SIZE`
etc.) are defined in maple.h outside the provided sources; the theorems
below do not depend on the concrete values, only on the devinfo blob being
non-empty. -/
def MAPLE_DEVINFO_SIZE : Nat := 112

/-- Modelled from the spec: see `MAPLE_DEVINFO_SIZE`. -/
def MAPLE_CONTROLLER_COND_SIZE : Nat := 16

/-- Modelled from the spec: see `MAPLE_DEVINFO_SIZE`. -/
def MAPLE_KEYBOARD_COND_SIZE : Nat := 16

/-- `maple_handle_frame` from maple.c: patterns other than 0 and 7 and
commands other than `DEVINFO`/`GETCOND` (the `NOP` case is commented out in
the source) raise `ERROR_UNIMPLEMENTED`; pattern 7 with zero packet length
returns without writing any response; `DEVINFO` answers with a devinfo
blob, or response code `NONE` and length 0 when the port is empty;
`GETCOND` answers `DATATRF`, or raises when the port is empty.  The result
is `some (code, output_len)` for a response written back, `none` for no
response. -/
def maple_handle_frame (ctxt : MapleCtx) (frame : MapleFrame) :
    Except MapleErr (Option (MapleResp × Nat)) :=
  match frame.ptrn with
  | 0 =>
      match frame.cmd with
      | .DEVINFO =>
          if ctxt.dev_enable frame.maple_addr then
            .ok (some (.DEVINFO, MAPLE_DEVINFO_SIZE))
          else
            -- this port/unit combo is not plugged in
            .ok (some (.NONE, 0))
      | .GETCOND =>
          if ctxt.dev_enable frame.maple_addr then
            .ok (some (.DATATRF,
              match ctxt.dev_cond_tp frame.maple_addr with
              | .controller => MAPLE_CONTROLLER_COND_SIZE
              | .keyboard => MAPLE_KEYBOARD_COND_SIZE))
          else .error .unimplemented
      | _ => .error .unimplemented
  | 7 => if frame.pack_len ≠ 0 then .error .unimplemented else .ok none
  | _ => .error .unimplemented

/-! ## Configuration store (config_file.c)

A character-at-a-time parser feeding a key/value list, plus the typed
getters. -/

/-- `enum cfg_parse_state`. -/
inductive CfgParseState
  | PRE_KEY | KEY | PRE_VAL | VAL | POST_VAL | ERROR
deriving Repr, DecidableEq

/-- The parser/store state (`struct cfg_state`): the key and value
accumulators are the meaningful prefixes of the C char buffers, and the
node list holds the key/value pairs in FIFO order. -/
structure CfgState where
  state : CfgParseState
  key : List Char
  val : List Char
  nodes : List (List Char × List Char)
  line_count : Nat
  in_comment : Bool
deriving Repr, DecidableEq

/-- The state `cfg_init` starts from. -/
def cfg_state_init : CfgState :=
  { state := .PRE_KEY, key := [], val := [], nodes := [],
    line_count := 0, in_comment := false }

/-- C `isspace` on the characters this parser can see. -/
def c_isspace (c : Char) : Bool :=
  c = ' ' || c = '\t' || c = '\n' || c = '\x0b' || c = '\x0c' || c = '\r'

/-- Overwrite the value of the first node carrying `key` (the C walks the
FIFO and stops at the first match). -/
def cfg_replace_first (key val : List Char) :
    List (List Char × List Char) → List (List Char × List Char)
  | [] => []
  | n :: rest =>
      if n.1 == key then (n.1, val) :: rest
      else n :: cfg_replace_first key val rest

/-- `cfg_add_entry`: overwrite an existing node with the current key, or
append a new node. -/
def cfg_add_entry (st : CfgState) : CfgState :=
  if st.nodes.any (fun n => n.1 == st.key) then
    { st with nodes := cfg_replace_first st.key st.val st.nodes }
  else
    { st with nodes := st.nodes ++ [(st.key, st.val)] }

/-- `cfg_handle_newline`: reset the line parser. -/
def cfg_handle_newline (st : CfgState) : CfgState :=
  { st with state := .PRE_KEY, key := [], val := [],
            line_count := st.line_count + 1 }

/-- `cfg_put_char` from config_file.c: comment preprocessing followed by
the five-state line parser.  Key and value buffers are bounded at
`CFG_NODE_KEY_LEN - 1 = 255` characters. -/
def cfg_put_char (st : CfgState) (ch0 : Char) : CfgState :=
  -- a null terminator counts as a newline
  let ch1 := if ch0 = '\x00' then '\n' else ch0
  let st := if ch1 = ';' then { st with in_comment := true } else st
  let (st, ch) :=
    if st.in_comment then
      if ch1 = '\n' then ({ st with in_comment := false }, ch1)
      else (st, ' ')
    else (st, ch1)
  match st.state with
  | .PRE_KEY =>
      if ch = '\n' then cfg_handle_newline st
      else if ¬ c_isspace ch then { st with state := .KEY, key := [ch] }
      else st
  | .KEY =>
      if ch = '\n' then cfg_handle_newline st
      else if c_isspace ch then { st with state := .PRE_VAL }
      else if st.key.length < 255 then { st with key := st.key ++ [ch] }
      else st
  | .PRE_VAL =>
      if ch = '\n' then cfg_handle_newline st
      else if ¬ c_isspace ch then { st with state := .VAL, val := [ch] }
      else st
  | .VAL =>
      if ch = '\n' then cfg_handle_newline (cfg_add_entry st)
      else if c_isspace ch then { st with state := .POST_VAL }
      else if st.val.length < 255 then { st with val := st.val ++ [ch] }
      else st
  | .POST_VAL =>
      if ch = '\n' then cfg_handle_newline (cfg_add_entry st)
      else if ¬ c_isspace ch then { st with state := .ERROR }
      else st
  | .ERROR =>
      if ch = '\n' then cfg_handle_newline st
      else st

/-- Feed a character sequence to the parser. -/
def cfg_put_chars (st : CfgState) (l : List Char) : CfgState :=
  l.foldl cfg_put_char st

/-- `cfg_get_node`: value of the first node carrying `key`. -/
def cfg_get_node (st : CfgState) (key : List Char) : Option (List Char) :=
  (st.nodes.find? (fun n => n.1 == key)).map (fun n => n.2)

/-- `cfg_parse_bool`: `"true"`/`"1"` and `"false"`/`"0"`; anything else is
the error return -1, modelled as `none`. -/
def cfg_parse_bool (valstr : List Char) : Option Bool :=
  if valstr == "true".toList || valstr == "1".toList then some true
  else if valstr == "false".toList || valstr == "0".toList then some false
  else none

/-- `cfg_get_bool`: look the key up and parse it as a bool. -/
def cfg_get_bool (st : CfgState) (key : List Char) : Option Bool :=
  (cfg_get_node st key).bind cfg_parse_bool

/-- One hex digit of `cfg_parse_rgb`. -/
def cfg_hex_digit (c : Char) : Option Nat :=
  if '0' ≤ c ∧ c ≤ '9' then some (c.toNat - '0'.toNat)
  else if 'a' ≤ c ∧ c ≤ 'f' then some (c.toNat - 'a'.toNat + 10)
  else if 'A' ≤ c ∧ c ≤ 'F' then some (c.toNat - 'A'.toNat + 10)
  else none

/-- `cfg_parse_rgb`: a seven-character `#rrggbb` string. -/
def cfg_parse_rgb (valstr : List Char) : Option (Nat × Nat × Nat) :=
  match valstr with
  | ['#', c0, c1, c2, c3, c4, c5] =>
      match cfg_hex_digit c0, cfg_hex_digit c1, cfg_hex_digit c2,
            cfg_hex_digit c3, cfg_hex_digit c4, cfg_hex_digit c5 with
      | some d0, some d1, some d2, some d3, some d4, some d5 =>
          some (d0 * 16 + d1, d2 * 16 + d3, d4 * 16 + d5)
      | _, _, _, _, _, _ => none
  | _ => none

/-- `cfg_get_rgb`: look the key up and parse it as `#rrggbb`. -/
def cfg_get_rgb (st : CfgState) (key : List Char) :
    Option (Nat × Nat × Nat) :=
  (cfg_get_node st key).bind cfg_parse_rgb

end Washdc

namespace Washdc

/-! ### Proofs about maple address packing -/

/-- C4: for every port in 0..3 and unit in 0..5 the round trip
`unpack (pack port unit)` recovers exactly `(port, unit)`. -/
theorem maple_addr_roundtrip (port unit : Nat)
    (hp : port ≤ 3) (hu : unit ≤ 5) :
    maple_addr_unpack (maple_addr_pack port unit) = some (port, unit) := by
  interval_cases port <;> interval_cases unit <;> decide

/-- Witness for `maple_addr_roundtrip` at port 2, unit 4. -/
theorem maple_addr_roundtrip_witness :
    maple_addr_unpack (maple_addr_pack 2 4) = some (2, 4) :=
  maple_addr_roundtrip 2 4 (by decide) (by decide)

/-! ### Proofs about the clock -/

/-- C5: (1) `clock_cycle_stamp` returns `TARGET - COUNTDOWN`;
(2) after `clock_set_cycle_stamp c v` the invariant
`STAMP == TARGET - COUNTDOWN` holds and `clock_cycle_stamp` returns `v`;
(3) under the documented precondition `n <= clock_countdown(clock)`,
`clock_countdown_sub` advances `clock_cycle_stamp` by exactly `n`
(mod 2^64) and the countdown does not underflow (it shrinks by exactly
`n`). -/
theorem clock_stamp_invariants (c : DcClock) (v n : Nat)
    (hc : c.wf) (hv : v < U64) (hn : n ≤ clock_countdown c) :
    clock_cycle_stamp c = (c.target + U64 - c.countdown) % U64 ∧
    ((clock_set_cycle_stamp c v).stamp =
       ((clock_set_cycle_stamp c v).target + U64 -
         (clock_set_cycle_stamp c v).countdown) % U64 ∧
     clock_cycle_stamp (clock_set_cycle_stamp c v) = v) ∧
    (clock_cycle_stamp (clock_countdown_sub c n) =
       (clock_cycle_stamp c + n) % U64 ∧
     (clock_countdown_sub c n).countdown = c.countdown - n) := by
  obtain ⟨hcd, ht, -⟩ := hc
  simp only [clock_countdown, clock_cycle_stamp, clock_set_cycle_stamp,
    clock_countdown_sub, U64] at *
  refine ⟨by trivial, ⟨by omega, by omega⟩, by omega, by omega⟩

/-- Witness for `clock_stamp_invariants` on a concrete clock. -/
theorem clock_stamp_invariants_witness :
    clock_cycle_stamp ⟨100, 250, 150⟩ =
      ((250 : Nat) + U64 - 100) % U64 ∧
    ((clock_set_cycle_stamp ⟨100, 250, 150⟩ 47).stamp =
       ((clock_set_cycle_stamp ⟨100, 250, 150⟩ 47).target + U64 -
         (clock_set_cycle_stamp ⟨100, 250, 150⟩ 47).countdown) % U64 ∧
     clock_cycle_stamp (clock_set_cycle_stamp ⟨100, 250, 150⟩ 47) = 47) ∧
    (clock_cycle_stamp (clock_countdown_sub ⟨100, 250, 150⟩ 30) =
       (clock_cycle_stamp ⟨100, 250, 150⟩ + 30) % U64 ∧
     (clock_countdown_sub ⟨100, 250, 150⟩ 30).countdown = 100 - 30) :=
  clock_stamp_invariants ⟨100, 250, 150⟩ 47 30
    ⟨by norm_num [U64], by norm_num [U64], by norm_num [U64]⟩
    (by norm_num [U64]) (by norm_num [clock_countdown])

/-! ### Proofs about the JIT hash emission (C1) -/

theorem sh4_jit_hash_slot_insts_eq (b : IlCodeBlock)
    (jmp_addr_slot hash_slot fpscr_slot : Nat) :
    (sh4_jit_hash_slot b jmp_addr_slot hash_slot fpscr_slot).insts =
      b.insts ++ hashSlotEmitted jmp_addr_slot hash_slot fpscr_slot
        b.n_slots := by
  simp [sh4_jit_hash_slot, alloc_slot, il_code_block_push_inst, free_slot,
    hashSlotEmitted]

/-- `((f &&& 2^k) <<< m) % 2^32` extracts bit `k` of `f` and places it at
position `k + m`, provided `k + m < 32`. -/
theorem and_two_pow_shift (f k m : Nat) (hkm : k + m < 32) :
    ((f &&& 2 ^ k) <<< m) % U32 = (f.testBit k).toNat <<< (k + m) := by
  rw [Nat.and_two_pow]
  cases hb : f.testBit k <;> simp [Nat.shiftLeft_eq, U32, pow_add]
  rw [← pow_add]
  have hlt : (2 : Nat) ^ (k + m) < 2 ^ 32 :=
    Nat.pow_lt_pow_right (by norm_num) hkm
  exact lt_of_lt_of_le hlt (by norm_num)

/-- C1: executing the dynamic hash-computation sequence emitted by
`sh4_jit_hash_slot` under the IL interpreter's op semantics leaves in the
hash slot exactly `sh4_jit_hash(addr, PR(fpscr), SZ(fpscr))`; the constant
variant `sh4_jit_hash_slot_known_fpscr` leaves the same value whenever the
compile context's `pr_bit`/`sz_bit` equal FPSCR's PR and SZ bits.  Here
`addr` and `fpscr` are the values held by the jump-address slot and FPSCR
slot, the three slots are live (below `n_slots`) and the hash slot is
distinct from the FPSCR slot, as at every call site. -/
theorem sh4_jit_hash_slot_correct
    (fgt : Nat → Nat → Bool) (b : IlCodeBlock) (j h fp : Nat)
    (σ : SlotState) (pr_bit sz_bit : Bool)
    (hj : j < b.n_slots) (hh : h < b.n_slots) (hf : fp < b.n_slots)
    (hhf : h ≠ fp)
    (hpr : pr_bit = fpscr_pr (σ fp)) (hsz : sz_bit = fpscr_sz (σ fp)) :
    intp_run fgt ((sh4_jit_hash_slot b j h fp).insts.drop b.insts.length)
        σ h =
      sh4_jit_hash (σ j) (fpscr_pr (σ fp)) (fpscr_sz (σ fp)) ∧
    intp_run fgt
        ((sh4_jit_hash_slot_known_fpscr pr_bit sz_bit b j h).insts.drop
          b.insts.length) σ h =
      sh4_jit_hash (σ j) (fpscr_pr (σ fp)) (fpscr_sz (σ fp)) := by
  have hhp : h ≠ b.n_slots := Nat.ne_of_lt hh
  have hhs : h ≠ b.n_slots + 1 := by omega
  have hjp : j ≠ b.n_slots := Nat.ne_of_lt hj
  have hjs : j ≠ b.n_slots + 1 := by omega
  have hfp' : fp ≠ b.n_slots := Nat.ne_of_lt hf
  have hfs : fp ≠ b.n_slots + 1 := by omega
  have hps : (b.n_slots : Nat) ≠ b.n_slots + 1 := by omega
  have hfh := hhf.symm
  have hph := Ne.symm hhp
  have hsh := Ne.symm hhs
  have hpj := Ne.symm hjp
  have hsj := Ne.symm hjs
  have hpf := Ne.symm hfp'
  have hsf := Ne.symm hfs
  have hsp := Ne.symm hps
  constructor
  · rw [sh4_jit_hash_slot_insts_eq, List.drop_left]
    simp only [hashSlotEmitted, intp_run, List.foldl, intp_step]
    rw [sh4_jit_hash]
    simp [Function.update_apply, hhp, hhs, hjp, hjs, hfp', hfs, hps, hhf,
      hfh, hph, hsh, hpj, hsj, hpf, hsf, hsp]
    rw [show SH4_FPSCR_PR_MASK = 2 ^ 19 from rfl,
        show SH4_FPSCR_SZ_MASK = 2 ^ 20 from rfl]
    rw [show SH4_JIT_HASH_PR_SHIFT - SH4_FPSCR_PR_SHIFT = 10 from rfl,
        show SH4_JIT_HASH_SZ_SHIFT - SH4_FPSCR_SZ_SHIFT = 10 from rfl]
    rw [and_two_pow_shift _ 19 10 (by norm_num),
        and_two_pow_shift _ 20 10 (by norm_num)]
    rfl
  · rw [sh4_jit_hash]
    subst hpr hsz
    cases hprv : fpscr_pr (σ fp) <;> cases hszv : fpscr_sz (σ fp) <;>
      simp [sh4_jit_hash_slot_known_fpscr, il_code_block_push_inst,
        intp_run, intp_step, Function.update_apply, List.append_assoc,
        List.drop_left, SH4_JIT_HASH_PR_SHIFT, SH4_JIT_HASH_SZ_SHIFT]

/-- Witness for `sh4_jit_hash_slot_correct` at a concrete block and state:
the block has three live slots holding address 0x8c0105aa (slot 0) and
FPSCR 0x180000 (slot 2, PR = SZ = 1); the hash slot is slot 1. -/
theorem sh4_jit_hash_slot_correct_witness :
    intp_run (fun _ _ => false)
        ((sh4_jit_hash_slot ⟨[], 3, fun _ => .GEN⟩ 0 1 2).insts.drop 0)
        (fun n => if n = 0 then 0x8c0105aa else
                  if n = 2 then 0x180000 else 0) 1 =
      0x6c0105aa ∧
    intp_run (fun _ _ => false)
        ((sh4_jit_hash_slot_known_fpscr true true
            ⟨[], 3, fun _ => .GEN⟩ 0 1).insts.drop 0)
        (fun n => if n = 0 then 0x8c0105aa else
                  if n = 2 then 0x180000 else 0) 1 =
      0x6c0105aa := by
  have := sh4_jit_hash_slot_correct (fun _ _ => false)
    ⟨[], 3, fun _ => .GEN⟩ 0 1 2
    (fun n => if n = 0 then 0x8c0105aa else if n = 2 then 0x180000 else 0)
    true true (by decide) (by decide) (by decide) (by decide)
    (by decide) (by decide)
  simpa using this

/-! ### Proofs about maple frame handling (C7) -/

/-- C7 counterexample: a pattern-0 frame whose command is `NOP`, addressed
to an enabled controller, does not produce an empty response — it raises
the unimplemented-command fatal error (the `MAPLE_CMD_NOP` case in
`maple_handle_frame` is commented out, so `NOP` falls into the default
error arm). -/
theorem maple_nop_frame_fails :
    maple_handle_frame ⟨fun _ => true, fun _ => .controller⟩
        ⟨0, 0, .NOP, 0x20⟩ =
      .error .unimplemented := by
  rfl

/-- C7 as amended: processing any pattern-0 maple frame whose command field
is `NOP` raises the unimplemented-command fatal error and writes no
response (instead of producing the empty response the claim describes). -/
theorem maple_nop_frame_unimplemented (ctxt : MapleCtx)
    (frame : MapleFrame) (hp : frame.ptrn = 0) (hc : frame.cmd = .NOP) :
    maple_handle_frame ctxt frame = .error .unimplemented := by
  simp [maple_handle_frame, hp, hc]

/-- Witness for `maple_nop_frame_unimplemented` at a concrete frame with no
devices attached. -/
theorem maple_nop_frame_unimplemented_witness :
    maple_handle_frame ⟨fun _ => false, fun _ => .keyboard⟩
        ⟨0, 4, .NOP, 0x01⟩ =
      .error .unimplemented :=
  maple_nop_frame_unimplemented ⟨fun _ => false, fun _ => .keyboard⟩
    ⟨0, 4, .NOP, 0x01⟩ rfl rfl

/-! ### Proofs about the configuration parser (C8) -/

set_option maxRecDepth 100000 in
/-- C8: feeding `"ui.bgcolor #3d77c0\nwin.vsync false\n"` one character at
a time to `cfg_put_char` from the initial parser state yields a store in
which `cfg_get_rgb "ui.bgcolor"` succeeds with (0x3d, 0x77, 0xc0) and
`cfg_get_bool "win.vsync"` succeeds with `false`. -/
theorem cfg_example_parse :
    cfg_get_rgb
        (cfg_put_chars cfg_state_init
          "ui.bgcolor #3d77c0\nwin.vsync false\n".toList)
        "ui.bgcolor".toList = some (0x3d, 0x77, 0xc0) ∧
    cfg_get_bool
        (cfg_put_chars cfg_state_init
          "ui.bgcolor #3d77c0\nwin.vsync false\n".toList)
        "win.vsync".toList = some false := by
  constructor
  · rfl
  · rfl

/-! ### Proofs about the emitted memory-map dispatch (C3) -/

/-- C3 counterexample: for a 16-bit access, a region `[0x100, 0x1ff]` with
full `range_mask` accepts the address `0x1fe` in the emitted code (the
upper bound is `last_addr - (N/8 - 1) = 0x1fe`), but `0x1fe` is outside the
claim's interval `[first_addr, last_addr - N/8] = [0x100, 0x1fd]`, so the
claim's characterization wrongly sends this access to the fatal-error
path. -/
theorem emit_native_mem_dispatch_off_by_one :
    emit_native_mem_dispatch 2 [⟨0x100, 0x1ff, 0xffffffff, 0xff⟩] 0x1fe =
      some ⟨0x100, 0x1ff, 0xffffffff, 0xff⟩ ∧
    ¬ claimedRegionMatch 2 ⟨0x100, 0x1ff, 0xffffffff, 0xff⟩ 0x1fe := by
  constructor
  · decide
  · decide

/-- C3 as amended: for each access width, the emitted dispatch tests the
regions in map order and selects the first region for which
`(addr & range_mask)` lies in `[first_addr, last_addr - (N/8 - 1)]`; an
address matching no region reaches the fatal-error path (`none`) instead of
returning a value. -/
theorem emit_native_mem_dispatch_first_match (nbytes : Nat)
    (regions : List MemoryMapRegion) (addr : Nat) :
    emit_native_mem_dispatch nbytes regions addr =
      regions.find? (fun r => nativeRegionMatch nbytes r addr) ∧
    (emit_native_mem_dispatch nbytes regions addr = none ↔
      ∀ r ∈ regions, ¬ nativeRegionMatch nbytes r addr) := by
  have main : emit_native_mem_dispatch nbytes regions addr =
      regions.find? (fun r => nativeRegionMatch nbytes r addr) := by
    induction regions with
    | nil => rfl
    | cons r rest ih =>
        simp only [emit_native_mem_dispatch, List.find?]
        by_cases h1 : (addr &&& r.range_mask) < r.first_addr
        · simp [h1, ih, nativeRegionMatch]
        · by_cases h2 : (r.last_addr + U32 - (nbytes - 1)) % U32 <
              (addr &&& r.range_mask)
          · simp [h1, h2, ih, nativeRegionMatch]
          · simp [h1, h2, nativeRegionMatch]
  refine ⟨main, ?_⟩
  rw [main, List.find?_eq_none]

/-! ### Proofs about the IL comparison ops (C10) -/

/-- C10: every comparison op of the IL interpreter ORs 1 into bit 0 of its
destination slot when its comparison holds and leaves the destination slot
(and every other slot) completely unchanged when it does not; consequently
no comparison op ever clears a destination bit that was already set (the
destination must therefore be pre-initialized before the comparison). -/
theorem intp_cmp_or_semantics (fgt : Nat → Nat → Bool) (i : JitInst)
    (σ : SlotState) (dst : Nat) (hdst : cmpDst i = some dst) :
    intp_step fgt σ i =
      (if cmpHolds fgt σ i then Function.update σ dst (σ dst ||| 1)
       else σ) ∧
    ∀ b : Nat, (σ dst).testBit b → (intp_step fgt σ i dst).testBit b := by
  have main : intp_step fgt σ i =
      (if cmpHolds fgt σ i then Function.update σ dst (σ dst ||| 1)
       else σ) := by
    cases i <;> simp only [cmpDst, Option.some.injEq, reduceCtorEq] at hdst <;>
      subst hdst <;>
      simp [intp_step, cmpHolds]
  refine ⟨main, fun b hb => ?_⟩
  rw [main]
  by_cases hc : cmpHolds fgt σ i = true
  · simp [hc, Function.update_apply, Nat.testBit_or, hb]
  · simp only [Bool.not_eq_true] at hc
    simp [hc, hb]

/-- Witness for `intp_cmp_or_semantics` at a concrete `SET_EQ` op whose
comparison holds, with the destination slot previously holding 4. -/
theorem intp_cmp_or_semantics_witness :
    intp_step (fun _ _ => false) (fun n => if n = 2 then 4 else 7)
        (.set_eq 0 1 2) =
      (if cmpHolds (fun _ _ => false) (fun n => if n = 2 then 4 else 7)
          (.set_eq 0 1 2) then
        Function.update (fun n => if n = 2 then 4 else 7) 2
          ((if (2 : Nat) = 2 then (4 : Nat) else 7) ||| 1)
       else fun n => if n = 2 then 4 else 7) ∧
    ∀ b : Nat, ((if (2 : Nat) = 2 then (4 : Nat) else 7)).testBit b →
      (intp_step (fun _ _ => false) (fun n => if n = 2 then 4 else 7)
        (.set_eq 0 1 2) 2).testBit b :=
  intp_cmp_or_semantics (fun _ _ => false)
    (.set_eq 0 1 2) (fun n => if n = 2 then 4 else 7) 2 (by decide)

/-! ### Proofs about cycle counting -/

/-- C2 counterexample: an MT instruction following an MT instruction is
charged zero cycles by `sh4_count_inst_cycles` (the code treats MT-after-MT
as free), whereas the claim's characterization says this case is charged
`op->issue` cycles.  Shown at the concrete opcode `{group := MT, issue := 1}`
with previous group MT. -/
theorem sh4_count_inst_cycles_mt_after_mt :
    sh4_count_inst_cycles ⟨.MT, 1⟩ .MT = (0, .NONE) ∧
    ¬ claimedFreeInst ⟨.MT, 1⟩ .MT := by
  constructor
  · decide
  · decide

/-- C2 as amended: `sh4_count_inst_cycles` charges zero cycles exactly when
the previous group is neither CO nor NONE, the current group is not CO, and
either the two groups differ or both are MT (MT-after-MT is also free); in
every charged case it returns `op->issue` and sets the last-group state to the
current group, and in the free case it sets the last-group state to NONE. -/
theorem sh4_count_inst_cycles_spec (op : InstOpcode) (last : Sh4Group) :
    sh4_count_inst_cycles op last =
      if actualFreeInst op last then (0, .NONE) else (op.issue, op.group) := by
  obtain ⟨g, i⟩ := op
  cases g <;> cases last <;>
    simp [sh4_count_inst_cycles, actualFreeInst]

/-! ### Proofs about DR register access -/

/-- C9: for every (even, in-range) register pair index n and every double v,
`sh4_write_dr` followed by `sh4_read_dr` returns exactly v (each direction
swaps the 32-bit halves, so the round trip is the identity), and no register
other than the FR pair `DR0+n`, `DR0+n+1` is modified. -/
theorem sh4_dr_roundtrip (reg : Nat → Nat) (n : Nat) (v : CDouble)
    (heven : n % 2 = 0) (hle : n ≤ 14) :
    sh4_read_dr (sh4_write_dr reg n v) n = v ∧
    ∀ i, i ≠ SH4_REG_DR0 + n → i ≠ SH4_REG_DR0 + n + 1 →
      sh4_write_dr reg n v i = reg i := by
  constructor
  · obtain ⟨lo, hi⟩ := v
    simp [sh4_read_dr, sh4_write_dr, Function.update]
  · intro i h1 h2
    simp [sh4_write_dr, Function.update, h1, h2]

/-- Witness for `sh4_dr_roundtrip` at n = 4, v = (7, 9), frame index 99. -/
theorem sh4_dr_roundtrip_witness :
    sh4_read_dr (sh4_write_dr (fun i => i) 4 ⟨7, 9⟩) 4 = ⟨7, 9⟩ ∧
    sh4_write_dr (fun i => i) 4 ⟨7, 9⟩ 99 = 99 :=
  ⟨(sh4_dr_roundtrip (fun i => i) 4 ⟨7, 9⟩ (by decide) (by decide)).1,
   (sh4_dr_roundtrip (fun i => i) 4 ⟨7, 9⟩ (by decide) (by decide)).2 99
     (by decide) (by decide)⟩

/-! ### Proofs about FPSCR-writing instruction compilation (C6)

Supporting lemmas about the compile-state helpers, then the claim. -/

@[simp] theorem jemit_reg_map (st : JitEmitState) (i : JitInst) :
    (jemit st i).reg_map = st.reg_map := rfl

@[simp] theorem jemit_ctx (st : JitEmitState) (i : JitInst) :
    (jemit st i).ctx = st.ctx := rfl

@[simp] theorem jemit_insts (st : JitEmitState) (i : JitInst) :
    (jemit st i).block.insts = st.block.insts ++ [i] := rfl

@[simp] theorem jemit_n_slots (st : JitEmitState) (i : JitInst) :
    (jemit st i).block.n_slots = st.block.n_slots := rfl

@[simp] theorem st_free_reg_map (st : JitEmitState) (s : Nat) :
    (st_free_slot st s).reg_map = st.reg_map := rfl

@[simp] theorem st_free_ctx (st : JitEmitState) (s : Nat) :
    (st_free_slot st s).ctx = st.ctx := rfl

@[simp] theorem st_free_insts (st : JitEmitState) (s : Nat) :
    (st_free_slot st s).block.insts =
      st.block.insts ++ [.discard_slot s] := rfl

@[simp] theorem st_free_n_slots (st : JitEmitState) (s : Nat) :
    (st_free_slot st s).block.n_slots = st.block.n_slots := rfl

@[simp] theorem st_alloc_fst_reg_map (st : JitEmitState) (tp : SlotTp) :
    (st_alloc_slot st tp).1.reg_map = st.reg_map := rfl

@[simp] theorem st_alloc_fst_ctx (st : JitEmitState) (tp : SlotTp) :
    (st_alloc_slot st tp).1.ctx = st.ctx := rfl

@[simp] theorem st_alloc_fst_insts (st : JitEmitState) (tp : SlotTp) :
    (st_alloc_slot st tp).1.block.insts = st.block.insts := rfl

@[simp] theorem st_alloc_fst_n_slots (st : JitEmitState) (tp : SlotTp) :
    (st_alloc_slot st tp).1.block.n_slots = st.block.n_slots + 1 := rfl

@[simp] theorem st_alloc_snd (st : JitEmitState) (tp : SlotTp) :
    (st_alloc_slot st tp).2 = st.block.n_slots := rfl

@[simp] theorem set_reg_stat_ctx (st : JitEmitState) (r : Nat)
    (s : RegStatus) : (set_reg_stat st r s).ctx = st.ctx := rfl

@[simp] theorem set_reg_stat_insts (st : JitEmitState) (r : Nat)
    (s : RegStatus) :
    (set_reg_stat st r s).block.insts = st.block.insts := rfl

@[simp] theorem set_reg_stat_n_slots (st : JitEmitState) (r : Nat)
    (s : RegStatus) :
    (set_reg_stat st r s).block.n_slots = st.block.n_slots := rfl

@[simp] theorem get_regbase_in_delay (st : JitEmitState) :
    (get_regbase_slot st).1.ctx.in_delay_slot = st.ctx.in_delay_slot := by
  unfold get_regbase_slot
  split <;> rfl

@[simp] theorem get_regbase_reg_map (st : JitEmitState) :
    (get_regbase_slot st).1.reg_map = st.reg_map := by
  unfold get_regbase_slot
  split <;> rfl

@[simp] theorem reg_slot_in_delay (st : JitEmitState) (r : Nat)
    (tp : SlotTp) :
    (reg_slot st r tp).1.ctx.in_delay_slot = st.ctx.in_delay_slot := by
  unfold reg_slot
  cases hstat : (st.reg_map r).stat <;> cases tp <;> simp

@[simp] theorem res_drain_reg_in_delay (st : JitEmitState) (r : Nat) :
    (res_drain_reg st r).ctx.in_delay_slot = st.ctx.in_delay_slot := by
  unfold res_drain_reg
  by_cases hs : (st.reg_map r).stat = .SLOT
  · rcases hgr : get_regbase_slot st with ⟨st1, s1⟩
    have h1 : st1.ctx.in_delay_slot = st.ctx.in_delay_slot := by
      rw [← get_regbase_in_delay st, hgr]
    simp only [hs, if_true, hgr]
    cases st1.block.slot_tp (st.reg_map r).slot_no <;> simp [h1]
  · simp [hs]

@[simp] theorem res_drain_all_in_delay (st : JitEmitState) :
    (res_drain_all_regs st).ctx.in_delay_slot = st.ctx.in_delay_slot := by
  unfold res_drain_all_regs
  generalize List.range SH4_REGISTER_COUNT = l
  induction l generalizing st with
  | nil => rfl
  | cons a t ih => simp [List.foldl, ih]

@[simp] theorem res_invalidate_reg_ctx (st : JitEmitState) (r : Nat) :
    (res_invalidate_reg st r).ctx = st.ctx := by
  unfold res_invalidate_reg
  by_cases h : (st.reg_map r).stat ≠ .SH4 <;> simp [h]

@[simp] theorem res_invalidate_step_ctx (st : JitEmitState) (r : Nat) :
    (res_invalidate_step st r).ctx = st.ctx := by
  unfold res_invalidate_step
  split <;> simp

@[simp] theorem res_invalidate_all_ctx (st : JitEmitState) :
    (res_invalidate_all_regs st).ctx = st.ctx := by
  unfold res_invalidate_all_regs
  generalize List.range SH4_REGISTER_COUNT = l
  induction l generalizing st with
  | nil => rfl
  | cons a t ih => simp [List.foldl, ih]

@[simp] theorem res_disassociate_in_delay (st : JitEmitState) (r : Nat) :
    (res_disassociate_reg st r).ctx.in_delay_slot =
      st.ctx.in_delay_slot := by
  unfold res_disassociate_reg
  simp

theorem appendsNoJump_refl (st : JitEmitState) : appendsNoJump st st :=
  ⟨[], by simp, by simp⟩

theorem appendsNoJump_trans {a b c : JitEmitState}
    (h1 : appendsNoJump a b) (h2 : appendsNoJump b c) :
    appendsNoJump a c := by
  obtain ⟨l1, he1, hn1⟩ := h1
  obtain ⟨l2, he2, hn2⟩ := h2
  refine ⟨l1 ++ l2, by simp [he2, he1], ?_⟩
  intro i hi
  rcases List.mem_append.mp hi with h | h
  · exact hn1 i h
  · exact hn2 i h

/-- A state whose block merely gained instructions `l` (all non-jump). -/
theorem appendsNoJump_of_insts {a b : JitEmitState} (l : List JitInst)
    (he : b.block.insts = a.block.insts ++ l)
    (hn : ∀ i ∈ l, isJumpInst i = false) : appendsNoJump a b :=
  ⟨l, he, hn⟩

theorem jemit_noJump (st : JitEmitState) (i : JitInst)
    (hi : isJumpInst i = false) : appendsNoJump st (jemit st i) :=
  ⟨[i], by simp, by simpa using hi⟩

theorem st_alloc_noJump (st : JitEmitState) (tp : SlotTp) :
    appendsNoJump st (st_alloc_slot st tp).1 :=
  ⟨[], by simp, by simp⟩

theorem st_free_noJump (st : JitEmitState) (s : Nat) :
    appendsNoJump st (st_free_slot st s) :=
  ⟨[.discard_slot s], by simp, by simp [isJumpInst]⟩

theorem set_reg_stat_noJump (st : JitEmitState) (r : Nat) (s : RegStatus) :
    appendsNoJump st (set_reg_stat st r s) :=
  ⟨[], by simp, by simp⟩

theorem get_regbase_noJump (st : JitEmitState) :
    appendsNoJump st (get_regbase_slot st).1 := by
  unfold get_regbase_slot
  split
  · exact appendsNoJump_refl st
  · exact ⟨[.set_slot_host_ptr st.block.n_slots], by simp [st_alloc_slot,
      alloc_slot, jemit, il_code_block_push_inst], by simp [isJumpInst]⟩

theorem get_regbase_pair_noJump {st st1 : JitEmitState} {s1 : Nat}
    (h : get_regbase_slot st = (st1, s1)) : appendsNoJump st st1 := by
  have hgr := get_regbase_noJump st
  rwa [h] at hgr

theorem get_regbase_pair_in_delay {st st1 : JitEmitState} {s1 : Nat}
    (h : get_regbase_slot st = (st1, s1)) :
    st1.ctx.in_delay_slot = st.ctx.in_delay_slot := by
  have hgr := get_regbase_in_delay st
  rwa [h] at hgr

theorem get_regbase_pair_reg_map {st st1 : JitEmitState} {s1 : Nat}
    (h : get_regbase_slot st = (st1, s1)) : st1.reg_map = st.reg_map := by
  have hgr := get_regbase_reg_map st
  rwa [h] at hgr

theorem reg_slot_noJump (st : JitEmitState) (r : Nat) (tp : SlotTp) :
    appendsNoJump st (reg_slot st r tp).1 := by
  unfold reg_slot
  cases hstat : (st.reg_map r).stat
  case SLOT_AND_SH4 => exact appendsNoJump_refl st
  case SLOT => exact appendsNoJump_refl st
  case SH4 =>
    simp only [st_alloc_slot, alloc_slot]
    cases tp
    · refine appendsNoJump_trans
        (appendsNoJump_trans (appendsNoJump_of_insts [] (by simp) (by simp))
          (get_regbase_noJump _))
        (jemit_noJump _ _ ?_)
      rfl
    · refine appendsNoJump_trans
        (appendsNoJump_trans (appendsNoJump_of_insts [] (by simp) (by simp))
          (get_regbase_noJump _))
        (jemit_noJump _ _ ?_)
      rfl
    · exact appendsNoJump_trans
        (appendsNoJump_of_insts [] (by simp) (by simp))
        (get_regbase_noJump _)

theorem res_drain_reg_noJump (st : JitEmitState) (r : Nat) :
    appendsNoJump st (res_drain_reg st r) := by
  unfold res_drain_reg
  by_cases hs : (st.reg_map r).stat = .SLOT
  · simp only [hs, if_true]
    cases htp : (get_regbase_slot st).1.block.slot_tp (st.reg_map r).slot_no
    · refine appendsNoJump_trans
        (appendsNoJump_trans (get_regbase_noJump st) (jemit_noJump _ _ ?_))
        (set_reg_stat_noJump _ r .SLOT_AND_SH4)
      rfl
    · refine appendsNoJump_trans
        (appendsNoJump_trans (get_regbase_noJump st) (jemit_noJump _ _ ?_))
        (set_reg_stat_noJump _ r .SLOT_AND_SH4)
      rfl
    · exact appendsNoJump_trans (get_regbase_noJump st)
        (set_reg_stat_noJump _ r .SLOT_AND_SH4)
  · simp only [hs, if_false]
    exact appendsNoJump_refl st

theorem foldl_noJump (f : JitEmitState → Nat → JitEmitState)
    (hf : ∀ st r, appendsNoJump st (f st r)) (l : List Nat)
    (st : JitEmitState) : appendsNoJump st (l.foldl f st) := by
  induction l generalizing st with
  | nil => exact appendsNoJump_refl st
  | cons a t ih => exact appendsNoJump_trans (hf st a) (ih (f st a))

theorem res_drain_all_noJump (st : JitEmitState) :
    appendsNoJump st (res_drain_all_regs st) :=
  foldl_noJump res_drain_reg res_drain_reg_noJump _ st

theorem res_invalidate_step_noJump (st : JitEmitState) (r : Nat) :
    appendsNoJump st (res_invalidate_step st r) := by
  simp only [res_invalidate_step, res_invalidate_reg]
  by_cases h : (st.reg_map r).stat = .SH4
  · simp [h]
    exact appendsNoJump_refl st
  · simp [h]
    exact appendsNoJump_trans (set_reg_stat_noJump st r .SH4)
      (st_free_noJump _ _)

theorem res_invalidate_all_noJump (st : JitEmitState) :
    appendsNoJump st (res_invalidate_all_regs st) :=
  foldl_noJump res_invalidate_step res_invalidate_step_noJump _ st

theorem res_disassociate_noJump (st : JitEmitState) (r : Nat) :
    appendsNoJump st (res_disassociate_reg st r) :=
  appendsNoJump_trans (res_drain_reg_noJump st r)
    (set_reg_stat_noJump _ r .SH4)

theorem res_drain_reg_id (st : JitEmitState) (r : Nat)
    (h : (st.reg_map r).stat ≠ .SLOT) : res_drain_reg st r = st := by
  simp [res_drain_reg, h]

theorem drain_fold_id (l : List Nat) (st : JitEmitState)
    (h : ∀ r ∈ l, (st.reg_map r).stat ≠ .SLOT) :
    l.foldl res_drain_reg st = st := by
  induction l with
  | nil => rfl
  | cons a t ih =>
      rw [List.foldl_cons, res_drain_reg_id st a (h a (by simp))]
      exact ih fun r hr => h r (by simp [hr])

theorem res_drain_all_id (st : JitEmitState)
    (h : ∀ r, r < SH4_REGISTER_COUNT → (st.reg_map r).stat ≠ .SLOT) :
    res_drain_all_regs st = st :=
  drain_fold_id _ st fun r hr => h r (List.mem_range.mp hr)

theorem res_invalidate_step_stat_self (st : JitEmitState) (r : Nat) :
    ((res_invalidate_step st r).reg_map r).stat = .SH4 := by
  simp only [res_invalidate_step, res_invalidate_reg]
  by_cases h : (st.reg_map r).stat = .SH4
  · simp [h]
  · simp [h, set_reg_stat, Function.update]

theorem res_invalidate_step_stat_pres (st : JitEmitState) (r r' : Nat)
    (hr : (st.reg_map r).stat = .SH4) :
    ((res_invalidate_step st r').reg_map r).stat = .SH4 := by
  by_cases he : r = r'
  · subst he
    exact res_invalidate_step_stat_self st r
  · simp only [res_invalidate_step, res_invalidate_reg]
    by_cases h : (st.reg_map r').stat = .SH4
    · simp [h, hr]
    · simp [h, set_reg_stat, Function.update_apply, he, hr]

theorem invalidate_fold_stat_pres (l : List Nat) (st : JitEmitState)
    (r : Nat) (hr : (st.reg_map r).stat = .SH4) :
    (((l.foldl res_invalidate_step st).reg_map r).stat = .SH4) := by
  induction l generalizing st with
  | nil => exact hr
  | cons a t ih =>
      rw [List.foldl_cons]
      exact ih _ (res_invalidate_step_stat_pres st r a hr)

theorem invalidate_fold_stat (l : List Nat) (st : JitEmitState) (r : Nat)
    (hmem : r ∈ l) :
    (((l.foldl res_invalidate_step st).reg_map r).stat = .SH4) := by
  induction l generalizing st with
  | nil => cases hmem
  | cons a t ih =>
      rw [List.foldl_cons]
      rcases List.mem_cons.mp hmem with he | ht
      · subst he
        exact invalidate_fold_stat_pres t _ r
          (res_invalidate_step_stat_self st r)
      · exact ih _ ht

theorem res_invalidate_all_stat (st : JitEmitState) (r : Nat)
    (hr : r < SH4_REGISTER_COUNT) :
    ((res_invalidate_all_regs st).reg_map r).stat = .SH4 := by
  unfold res_invalidate_all_regs
  exact invalidate_fold_stat _ st r (List.mem_range.mpr hr)

theorem appendsHashJump_prepend {a b c : JitEmitState} {pc : Nat}
    (h1 : appendsNoJump a b) (h2 : appendsHashJump b c pc) :
    appendsHashJump a c pc := by
  obtain ⟨l, he, hn⟩ := h1
  obtain ⟨pre, rb, setup, j, h, fp, ns, d, heq, hpre, hrest⟩ := h2
  refine ⟨l ++ pre, rb, setup, j, h, fp, ns, d,
    by simp [heq, he, List.append_assoc], ?_, hrest⟩
  intro i hi
  rcases List.mem_append.mp hi with hil | hip
  · exact hn i hil
  · exact hpre i hip

@[simp] theorem lds_pre_in_delay (st : JitEmitState) (inst : Nat) :
    (sh4_jit_lds_rm_fpscr_pre st inst).ctx.in_delay_slot =
      st.ctx.in_delay_slot := by
  simp [sh4_jit_lds_rm_fpscr_pre]

@[simp] theorem ldsl_pre_in_delay (st : JitEmitState) (inst : Nat) :
    (sh4_jit_ldsl_armp_fpscr_pre st inst).ctx.in_delay_slot =
      st.ctx.in_delay_slot := by
  simp [sh4_jit_ldsl_armp_fpscr_pre]

@[simp] theorem fschg_pre_in_delay (st : JitEmitState) :
    (sh4_jit_fschg_pre st).ctx.in_delay_slot = st.ctx.in_delay_slot := by
  simp [sh4_jit_fschg_pre]

theorem ctx_upd_noJump (st : JitEmitState) (c : Sh4JitCompileCtx) :
    appendsNoJump st { st with ctx := c } :=
  ⟨[], by simp, by simp⟩

theorem lds_pre_noJump (st : JitEmitState) (inst : Nat) :
    appendsNoJump st (sh4_jit_lds_rm_fpscr_pre st inst) := by
  simp only [sh4_jit_lds_rm_fpscr_pre]
  rcases hrs : reg_slot st (((inst &&& 0x0f00) >>> 8) + SH4_REG_R0) .GEN
    with ⟨st1, s1⟩
  have h1 : appendsNoJump st st1 := by
    have h := reg_slot_noJump st (((inst &&& 0x0f00) >>> 8) + SH4_REG_R0)
      .GEN
    rwa [hrs] at h
  let st2 := res_disassociate_reg st1 (((inst &&& 0x0f00) >>> 8) +
    SH4_REG_R0)
  let st3 := res_drain_all_regs st2
  let st4 := res_invalidate_all_regs st3
  let st5 := jemit st4 (.call_func .set_fpscr s1)
  let st6 := st_free_slot st5 s1
  have h2 : appendsNoJump st st2 :=
    appendsNoJump_trans h1 (res_disassociate_noJump st1 _)
  have h3 : appendsNoJump st st3 :=
    appendsNoJump_trans h2 (res_drain_all_noJump st2)
  have h4 : appendsNoJump st st4 :=
    appendsNoJump_trans h3 (res_invalidate_all_noJump st3)
  have h5 : appendsNoJump st st5 :=
    appendsNoJump_trans h4 (jemit_noJump st4 (.call_func .set_fpscr s1) rfl)
  have h6 : appendsNoJump st st6 :=
    appendsNoJump_trans h5 (st_free_noJump st5 s1)
  exact appendsNoJump_trans h6 (ctx_upd_noJump st6 _)

theorem ldsl_pre_noJump (st : JitEmitState) (inst : Nat) :
    appendsNoJump st (sh4_jit_ldsl_armp_fpscr_pre st inst) := by
  simp only [sh4_jit_ldsl_armp_fpscr_pre]
  rcases hrs : reg_slot st (((inst &&& 0x0f00) >>> 8) + SH4_REG_R0) .GEN
    with ⟨st1, s1⟩
  have h1 : appendsNoJump st st1 := by
    have h := reg_slot_noJump st (((inst &&& 0x0f00) >>> 8) + SH4_REG_R0)
      .GEN
    rwa [hrs] at h
  let st2 := (st_alloc_slot st1 SlotTp.GEN).1
  let nv := st1.block.n_slots
  let st3 := jemit st2 (.read_32_slot s1 nv)
  let st4 := jemit st3 (.add_const32 s1 4)
  let st5 := set_reg_stat st4 (((inst &&& 0x0f00) >>> 8) + SH4_REG_R0)
    .SLOT
  let st6 := res_drain_all_regs st5
  let st7 := res_invalidate_all_regs st6
  let st8 := jemit st7 (.call_func .set_fpscr nv)
  let st9 := st_free_slot st8 nv
  have h2 : appendsNoJump st st2 :=
    appendsNoJump_trans h1 (st_alloc_noJump st1 .GEN)
  have h3 : appendsNoJump st st3 :=
    appendsNoJump_trans h2 (jemit_noJump st2 (.read_32_slot s1 nv) rfl)
  have h4 : appendsNoJump st st4 :=
    appendsNoJump_trans h3 (jemit_noJump st3 (.add_const32 s1 4) rfl)
  have h5 : appendsNoJump st st5 :=
    appendsNoJump_trans h4 (set_reg_stat_noJump st4 _ .SLOT)
  have h6 : appendsNoJump st st6 :=
    appendsNoJump_trans h5 (res_drain_all_noJump st5)
  have h7 : appendsNoJump st st7 :=
    appendsNoJump_trans h6 (res_invalidate_all_noJump st6)
  have h8 : appendsNoJump st st8 :=
    appendsNoJump_trans h7 (jemit_noJump st7 (.call_func .set_fpscr nv) rfl)
  have h9 : appendsNoJump st st9 :=
    appendsNoJump_trans h8 (st_free_noJump st8 nv)
  exact appendsNoJump_trans h9 (ctx_upd_noJump st9 _)

theorem fschg_pre_noJump (st : JitEmitState) :
    appendsNoJump st (sh4_jit_fschg_pre st) := by
  simp only [sh4_jit_fschg_pre]
  rcases hrs : reg_slot st SH4_REG_FPSCR .GEN with ⟨st1, s1⟩
  have h1 : appendsNoJump st st1 := by
    have h := reg_slot_noJump st SH4_REG_FPSCR .GEN
    rwa [hrs] at h
  let st2 := res_disassociate_reg st1 SH4_REG_FPSCR
  let st3 := jemit st2 (.xor_const32 s1 SH4_FPSCR_SZ_MASK)
  let st4 : JitEmitState :=
    { st3 with ctx := { st3.ctx with sz_bit := ! st3.ctx.sz_bit } }
  let st5 := res_drain_all_regs st4
  let st6 := res_invalidate_all_regs st5
  let st7 := jemit st6 (.call_func .set_fpscr s1)
  let st8 := st_free_slot st7 s1
  have h2 : appendsNoJump st st2 :=
    appendsNoJump_trans h1 (res_disassociate_noJump st1 _)
  have h3 : appendsNoJump st st3 :=
    appendsNoJump_trans h2
      (jemit_noJump st2 (.xor_const32 s1 SH4_FPSCR_SZ_MASK) rfl)
  have h4 : appendsNoJump st st4 :=
    appendsNoJump_trans h3 (ctx_upd_noJump st3 _)
  have h5 : appendsNoJump st st5 :=
    appendsNoJump_trans h4 (res_drain_all_noJump st4)
  have h6 : appendsNoJump st st6 :=
    appendsNoJump_trans h5 (res_invalidate_all_noJump st5)
  have h7 : appendsNoJump st st7 :=
    appendsNoJump_trans h6 (jemit_noJump st6 (.call_func .set_fpscr s1) rfl)
  have h8 : appendsNoJump st st8 :=
    appendsNoJump_trans h7 (st_free_noJump st7 s1)
  exact appendsNoJump_trans h8 (ctx_upd_noJump st8 _)

theorem lds_pre_stats (st : JitEmitState) (inst : Nat) :
    ∀ r, r < SH4_REGISTER_COUNT →
      ((sh4_jit_lds_rm_fpscr_pre st inst).reg_map r).stat = .SH4 := by
  intro r hr
  simp only [sh4_jit_lds_rm_fpscr_pre, jemit_reg_map, st_free_reg_map]
  exact res_invalidate_all_stat _ r hr

theorem ldsl_pre_stats (st : JitEmitState) (inst : Nat) :
    ∀ r, r < SH4_REGISTER_COUNT →
      ((sh4_jit_ldsl_armp_fpscr_pre st inst).reg_map r).stat = .SH4 := by
  intro r hr
  simp only [sh4_jit_ldsl_armp_fpscr_pre, jemit_reg_map, st_free_reg_map]
  exact res_invalidate_all_stat _ r hr

theorem fschg_pre_stats (st : JitEmitState) :
    ∀ r, r < SH4_REGISTER_COUNT →
      ((sh4_jit_fschg_pre st).reg_map r).stat = .SH4 := by
  intro r hr
  simp only [sh4_jit_fschg_pre, jemit_reg_map, st_free_reg_map]
  exact res_invalidate_all_stat _ r hr

/-- When every register is resident in the SH4 array (`SH4` status, as
`res_invalidate_all_regs` leaves them), the shared terminator sequence
emits exactly a `pc + 2` jump-address set, an FPSCR reload, the dynamic
hash computation and a final jump. -/
theorem sh4_jit_emit_hash_jump_shape (ff : Bool) (st : JitEmitState)
    (pc : Nat)
    (hstats : ∀ r, r < SH4_REGISTER_COUNT → (st.reg_map r).stat = .SH4) :
    appendsHashJump st (sh4_jit_emit_hash_jump ff st pc) pc := by
  have hFP : (st.reg_map SH4_REG_FPSCR).stat = .SH4 := hstats _ (by decide)
  have hstats' : ∀ r, r < SH4_REGISTER_COUNT →
      ((Function.update st.reg_map SH4_REG_FPSCR
        (Residency.mk .SLOT_AND_SH4 (st.block.n_slots + 2))) r).stat ≠
        .SLOT := by
    intro r hr
    by_cases he : r = SH4_REG_FPSCR
    · subst he
      simp [Function.update]
    · simp [Function.update_apply, he, hstats r hr]
  unfold appendsHashJump
  by_cases hrb : st.ctx.have_reg_slot
  · refine ⟨[], st.ctx.reg_slot, [], st.block.n_slots, st.block.n_slots + 1,
      st.block.n_slots + 2, st.block.n_slots + 3,
      if ff then [JitInst.discard_slot (st.block.n_slots + 2)] else [],
      ?_, by simp, Or.inl rfl, ?_, by omega, by omega, by omega, by omega,
      by omega, by omega⟩
    · simp only [sh4_jit_emit_hash_jump, st_alloc_slot, alloc_slot, jemit,
        il_code_block_push_inst, st_free_slot, free_slot, reg_slot,
        get_regbase_slot, hFP, hrb, if_true]
      cases ff <;>
        (rw [res_drain_all_id]
         · simp [sh4_jit_hash_slot_insts_eq, hashSlotEmitted,
             List.append_assoc]
         · intro r hr
           simpa using hstats' r hr)
    · cases ff
      · exact Or.inl rfl
      · exact Or.inr rfl
  · refine ⟨[], st.block.n_slots + 3,
      [JitInst.set_slot_host_ptr (st.block.n_slots + 3)], st.block.n_slots,
      st.block.n_slots + 1, st.block.n_slots + 2, st.block.n_slots + 4,
      if ff then [JitInst.discard_slot (st.block.n_slots + 2)] else [],
      ?_, by simp, Or.inr rfl, ?_, by omega, by omega, by omega, by omega,
      by omega, by omega⟩
    · simp only [sh4_jit_emit_hash_jump, st_alloc_slot, alloc_slot, jemit,
        il_code_block_push_inst, st_free_slot, free_slot, reg_slot,
        get_regbase_slot, hFP, hrb, if_false]
      cases ff <;>
        (rw [res_drain_all_id]
         · simp [sh4_jit_hash_slot_insts_eq, hashSlotEmitted,
             List.append_assoc]
         · intro r hr
           simpa using hstats' r hr)
    · cases ff
      · exact Or.inl rfl
      · exact Or.inr rfl

/-- C6: when the JIT compiles an instruction that can change FPSCR's PR or
SZ bits (LDS Rm,FPSCR; LDS.L @Rm+,FPSCR; FSCHG) outside a delay slot, it
terminates the block: it emits a jump to `pc + 2` whose hash slot is
recomputed dynamically from the updated FPSCR (`appendsHashJump`) and
reports the block as ended by returning `false`; compiled inside a delay
slot, the same instruction emits no terminator (`appendsNoJump`) and the
compile function returns `true`. -/
theorem sh4_jit_fpscr_change_terminates (st : JitEmitState)
    (pc inst : Nat) :
    ((st.ctx.in_delay_slot = false →
       (sh4_jit_lds_rm_fpscr st pc inst).2 = false ∧
       appendsHashJump st (sh4_jit_lds_rm_fpscr st pc inst).1 pc) ∧
     (st.ctx.in_delay_slot = true →
       (sh4_jit_lds_rm_fpscr st pc inst).2 = true ∧
       appendsNoJump st (sh4_jit_lds_rm_fpscr st pc inst).1)) ∧
    ((st.ctx.in_delay_slot = false →
       (sh4_jit_ldsl_armp_fpscr st pc inst).2 = false ∧
       appendsHashJump st (sh4_jit_ldsl_armp_fpscr st pc inst).1 pc) ∧
     (st.ctx.in_delay_slot = true →
       (sh4_jit_ldsl_armp_fpscr st pc inst).2 = true ∧
       appendsNoJump st (sh4_jit_ldsl_armp_fpscr st pc inst).1)) ∧
    ((st.ctx.in_delay_slot = false →
       (sh4_jit_fschg st pc inst).2 = false ∧
       appendsHashJump st (sh4_jit_fschg st pc inst).1 pc) ∧
     (st.ctx.in_delay_slot = true →
       (sh4_jit_fschg st pc inst).2 = true ∧
       appendsNoJump st (sh4_jit_fschg st pc inst).1)) := by
  refine ⟨⟨?_, ?_⟩, ⟨?_, ?_⟩, ⟨?_, ?_⟩⟩
  · intro hdel
    constructor
    · simp [sh4_jit_lds_rm_fpscr, hdel]
    · simp only [sh4_jit_lds_rm_fpscr, lds_pre_in_delay, hdel]
      simp only [Bool.false_eq_true, not_false_eq_true, if_true]
      exact appendsHashJump_prepend (lds_pre_noJump st inst)
        (sh4_jit_emit_hash_jump_shape false _ pc (lds_pre_stats st inst))
  · intro hdel
    constructor
    · simp [sh4_jit_lds_rm_fpscr, hdel]
    · simp only [sh4_jit_lds_rm_fpscr, lds_pre_in_delay, hdel]
      simp only [not_true_eq_false, if_false]
      exact lds_pre_noJump st inst
  · intro hdel
    constructor
    · simp [sh4_jit_ldsl_armp_fpscr, hdel]
    · simp only [sh4_jit_ldsl_armp_fpscr, ldsl_pre_in_delay, hdel]
      simp only [Bool.false_eq_true, not_false_eq_true, if_true]
      exact appendsHashJump_prepend (ldsl_pre_noJump st inst)
        (sh4_jit_emit_hash_jump_shape false _ pc (ldsl_pre_stats st inst))
  · intro hdel
    constructor
    · simp [sh4_jit_ldsl_armp_fpscr, hdel]
    · simp only [sh4_jit_ldsl_armp_fpscr, ldsl_pre_in_delay, hdel]
      simp only [not_true_eq_false, if_false]
      exact ldsl_pre_noJump st inst
  · intro hdel
    constructor
    · simp [sh4_jit_fschg, hdel]
    · simp only [sh4_jit_fschg, fschg_pre_in_delay, hdel]
      simp only [Bool.false_eq_true, not_false_eq_true, if_true]
      exact appendsHashJump_prepend (fschg_pre_noJump st)
        (sh4_jit_emit_hash_jump_shape true _ pc (fschg_pre_stats st))
  · intro hdel
    constructor
    · simp [sh4_jit_fschg, hdel]
    · simp only [sh4_jit_fschg, fschg_pre_in_delay, hdel]
      simp only [not_true_eq_false, if_false]
      exact fschg_pre_noJump st

/-- Witness for `sh4_jit_fpscr_change_terminates` on a fresh compile state
(every register resident in the SH4 array, not in a delay slot), at
pc 0x8c010000 compiling `LDS R10, FPSCR` (0x4a6a). -/
theorem sh4_jit_fpscr_change_terminates_witness :
    (sh4_jit_lds_rm_fpscr
        ⟨fun _ => ⟨.SH4, 0⟩, ⟨0, false, false, false, false, false⟩,
          ⟨[], 0, fun _ => .GEN⟩⟩ 0x8c010000 0x4a6a).2 = false ∧
    appendsHashJump
      ⟨fun _ => ⟨.SH4, 0⟩, ⟨0, false, false, false, false, false⟩,
        ⟨[], 0, fun _ => .GEN⟩⟩
      (sh4_jit_lds_rm_fpscr
        ⟨fun _ => ⟨.SH4, 0⟩, ⟨0, false, false, false, false, false⟩,
          ⟨[], 0, fun _ => .GEN⟩⟩ 0x8c010000 0x4a6a).1
      0x8c010000 :=
  (sh4_jit_fpscr_change_terminates
    ⟨fun _ => ⟨.SH4, 0⟩, ⟨0, false, false, false, false, false⟩,
      ⟨[], 0, fun _ => .GEN⟩⟩ 0x8c010000 0x4a6a).1.1 rfl

end Washdc
